import Mathlib

/-!
# Verification of the KarpelesLab/rest upload engine

A shallow embedding of the upload engine of the `rest` Go package
(`upload.go`, `spot.go`, and the stall-detecting reader), together with
proofs about its behaviour.

Conventions used throughout:

* Go machine integers (`int`, `int64`) are modelled as `Int`; none of the
  embedded code paths can overflow for the values considered.
* Fallible Go functions returning `error` are modelled with `Except`;
  a run-time panic (failed single-form type assertion) is modelled as a
  distinguished `ParseFailure.goPanic` outcome.
* Channels/goroutines are modelled by making the communicated decision
  explicit: each dispatch function returns what is sent on which channel
  and whether the part body is uploaded.
* The second (current) revision of `upload.go` is embedded: it is the one
  that references `UploadHttpClient`, `stallDetectReader`,
  `ErrUploadStalled` and `UploadProgress`, all of which exist only in the
  current source tree.
-/

namespace RestUpload

/-- Go `error` values that the upload engine distinguishes.

`eof` is `io.EOF`, `uploadStalled` is `ErrUploadStalled`, `canceled` and
`deadlineExceeded` are `context.Canceled` / `context.DeadlineExceeded`,
`closedPipe` is `io.ErrClosedPipe`; every other error is `other msg`. -/
inductive GoErr where
  | eof
  | uploadStalled
  | canceled
  | deadlineExceeded
  | closedPipe
  | other (msg : String)
  deriving DecidableEq, Repr

/-- The mutable fields of `UploadInfo` (upload.go) that the embedded code
reads or writes.  `sync.Mutex` and `context.Context` carry no data and are
omitted; `awstags` is the part-tag table. -/
structure UploadInfo where
  put : String
  cmpl : String
  MaxPartSize : Int
  ParallelUploads : Int
  blocksize : Int
  awsid : String
  awskey : String
  awsregion : String
  awsname : String
  awshost : String
  awsuploadid : String
  awstags : List String
  deriving DecidableEq, Repr

/-- The `UploadInfo` built by `PrepareUpload` before `parse` runs:
`MaxPartSize: 1024`, `ParallelUploads: 3`, everything else zero-valued. -/
def prepareUploadDefaults : UploadInfo where
  put := ""
  cmpl := ""
  MaxPartSize := 1024
  ParallelUploads := 3
  blocksize := 0
  awsid := ""
  awskey := ""
  awsregion := ""
  awsname := ""
  awshost := ""
  awsuploadid := ""
  awstags := []

/-! ## The part-tag table: `setTag` (upload.go, current revision)

```go
func (u *UploadInfo) setTag(partNo int, tag string) {
    u.awstagsLk.Lock()
    defer u.awstagsLk.Unlock()
    pos := partNo - 1
    if cap(u.awstags) <= pos {
        tmp := make([]string, len(u.awstags), cap(u.awstags)+64)
        copy(tmp, u.awstags)
        u.awstags = tmp
    }
    if pos >= len(u.awstags) {
        u.awstags = u.awstags[:pos+1]
    }
    u.awstags[pos] = tag
}
```

The growth step is a one-shot `cap+64`: when `pos+1` still exceeds the new
capacity — that is, whenever `partNo-1 ≥ cap(awstags)+64` — the reslice
`u.awstags[:pos+1]` panics with a slice-bounds error, e.g. `setTag(65, t)`
on a fresh table (capacity grows only to 64 before `[:65]`).  `setTagGo`
below models the call with the capacity tracked and that panic explicit.

On the successful path the capacity bookkeeping is invisible at the level
of list values: slots of the backing array beyond `len` are always the zero
value `""` (a fresh array from `make` is zeroed, the grown copy is zeroed
beyond the copied prefix, and the slice never shrinks), so the reslice
exposes empty strings.  `setTagList` is that value-level semantics of a
successful call: pad with `""` up to length `pos+1` if needed, then
overwrite index `pos`. -/

/-- Value-level semantics of a successful `setTag` call acting on the
`awstags` field. -/
def setTagList (tags : List String) (partNo : Nat) (tag : String) : List String :=
  (if tags.length ≤ partNo - 1
    then tags ++ List.replicate (partNo - 1 + 1 - tags.length) ""
    else tags).set (partNo - 1) tag

/-- Go slice semantics of `setTag` with the capacity `cp` of `awstags`
tracked explicitly.  The capacity test and `+64` growth come first; the
reslice `u.awstags[:pos+1]` then panics when `pos+1` exceeds the (possibly
grown) capacity; otherwise it exposes zeroed slots up to `pos` and the write
lands at `pos`. -/
def setTagGo (tags : List String) (cp : Nat) (partNo : Nat) (tag : String) :
    Except String (List String × Nat) :=
  if tags.length ≤ partNo - 1 then
    if (if cp ≤ partNo - 1 then cp + 64 else cp) < partNo - 1 + 1 then
      .error "runtime error: slice bounds out of range"
    else
      .ok ((tags ++ List.replicate (partNo - 1 + 1 - tags.length) "").set
            (partNo - 1) tag,
        if cp ≤ partNo - 1 then cp + 64 else cp)
  else .ok (tags.set (partNo - 1) tag, if cp ≤ partNo - 1 then cp + 64 else cp)

/-- `setTag` on the whole `UploadInfo`: the method body never mentions a
field other than `awstags` (and its lock), so on success only `awstags`
changes; a panic aborts with no result. -/
def UploadInfo.setTagGo (u : UploadInfo) (cp : Nat) (partNo : Nat) (tag : String) :
    Except String (UploadInfo × Nat) :=
  (RestUpload.setTagGo u.awstags cp partNo tag).map
    (fun tc => ({ u with awstags := tc.1 }, tc.2))

theorem setTagList_length (tags : List String) (partNo : Nat) (tag : String)
    (h : 1 ≤ partNo) :
    (setTagList tags partNo tag).length = max tags.length partNo := by
  unfold setTagList
  by_cases hc : tags.length ≤ partNo - 1 <;> simp [hc] <;> omega

/-- Complete pointwise description of the table after `setTag`. -/
theorem setTagList_getElem? (tags : List String) (partNo : Nat) (tag : String)
    (h : 1 ≤ partNo) (i : Nat) :
    (setTagList tags partNo tag)[i]? =
      if i = partNo - 1 then some tag
      else if i < tags.length then tags[i]?
      else if i < max tags.length partNo then some "" else none := by
  unfold setTagList
  by_cases hc : tags.length ≤ partNo - 1
  · simp only [hc, if_true]
    rw [List.getElem?_set]
    have hlen : (tags ++ List.replicate (partNo - 1 + 1 - tags.length) "").length = partNo := by
      simp only [List.length_append, List.length_replicate]; omega
    by_cases hi : i = partNo - 1
    · subst hi
      simp only [if_pos rfl, hlen]
      have : partNo - 1 < partNo := by omega
      simp [this]
    · rw [if_neg (fun hx => hi hx.symm), if_neg hi]
      by_cases hlt : i < tags.length
      · rw [List.getElem?_append_left hlt, if_pos hlt]
      · rw [if_neg hlt, List.getElem?_append_right (by omega), List.getElem?_replicate]
        have hmax : max tags.length partNo = partNo := by omega
        rw [hmax]
        by_cases hip : i < partNo
        · rw [if_pos (by omega), if_pos hip]
        · rw [if_neg (by omega), if_neg hip]
  · simp only [hc, if_false]
    rw [List.getElem?_set]
    have hmax : max tags.length partNo = tags.length := by omega
    by_cases hi : i = partNo - 1
    · subst hi
      simp only [if_pos rfl]
      have : partNo - 1 < tags.length := by omega
      simp [this]
    · rw [if_neg (fun hx => hi hx.symm), if_neg hi, hmax]
      by_cases hlt : i < tags.length
      · rw [if_pos hlt]
      · rw [if_neg hlt, if_neg hlt, List.getElem?_eq_none_iff.mpr (by omega)]

/-- On the non-panicking path, `setTagGo` computes exactly `setTagList` and
grows the capacity by 64 exactly when the old capacity was at most `pos`. -/
theorem setTagGo_ok (tags : List String) (cp partNo : Nat) (tag : String)
    (hfit : partNo - 1 < cp + 64) :
    setTagGo tags cp partNo tag =
      .ok (setTagList tags partNo tag,
        if cp ≤ partNo - 1 then cp + 64 else cp) := by
  unfold setTagGo setTagList
  by_cases hlen : tags.length ≤ partNo - 1
  · have hc1 : ¬((if cp ≤ partNo - 1 then cp + 64 else cp) < partNo - 1 + 1) := by
      split_ifs <;> omega
    rw [if_pos hlen, if_neg hc1, if_pos hlen]
  · rw [if_neg hlen, if_neg hlen]

/-- Claim C10 counterexample: the claim quantifies over every `partNo ≥ 1`,
but `setTag` grows the capacity by a single `+64` step, so `setTag(65, t)`
on a fresh table builds a backing array of capacity 64 and then reslices
`u.awstags[:65]` — a slice-bounds panic, not a table write: at `partNo = 65`
no entry is written and no length is produced. -/
theorem setTag_panic_counterexample :
    setTagGo [] 0 65 "t" = .error "runtime error: slice bounds out of range" ∧
    prepareUploadDefaults.setTagGo 0 65 "t" =
      .error "runtime error: slice bounds out of range" :=
  ⟨rfl, rfl⟩

/-- Claim C10 amended: for every `partNo ≥ 1` that the one-shot capacity
growth can accommodate (`partNo - 1 < cap + 64`), `setTag(partNo, tag)`
modifies only the part-tag table: the entry at index `partNo-1` becomes
`tag`, the table length becomes the maximum of the previous length and
`partNo`, every other previously-present index keeps its value (so earlier
`setTag` writes persist), newly exposed intermediate slots are empty
strings, the capacity grows by exactly 64 when it was at most `partNo-1`,
and every other field of the `UploadInfo` is unchanged; when
`partNo - 1 ≥ cap + 64` the call instead panics with a slice-bounds error. -/
theorem setTagGo_spec (u : UploadInfo) (cp partNo : Nat) (tag : String)
    (h : 1 ≤ partNo) (hcap : u.awstags.length ≤ cp) :
    (partNo - 1 < cp + 64 →
      u.setTagGo cp partNo tag =
        .ok ({ u with awstags := setTagList u.awstags partNo tag },
          if cp ≤ partNo - 1 then cp + 64 else cp) ∧
      (setTagList u.awstags partNo tag)[partNo - 1]? = some tag ∧
      (setTagList u.awstags partNo tag).length = max u.awstags.length partNo ∧
      (∀ i, i ≠ partNo - 1 → i < u.awstags.length →
        (setTagList u.awstags partNo tag)[i]? = u.awstags[i]?) ∧
      (∀ i, i ≠ partNo - 1 → u.awstags.length ≤ i →
        i < (setTagList u.awstags partNo tag).length →
        (setTagList u.awstags partNo tag)[i]? = some "") ∧
      { u with awstags := setTagList u.awstags partNo tag }.put = u.put ∧
      { u with awstags := setTagList u.awstags partNo tag }.cmpl = u.cmpl ∧
      { u with awstags := setTagList u.awstags partNo tag }.MaxPartSize =
        u.MaxPartSize ∧
      { u with awstags := setTagList u.awstags partNo tag }.ParallelUploads =
        u.ParallelUploads ∧
      { u with awstags := setTagList u.awstags partNo tag }.blocksize =
        u.blocksize ∧
      { u with awstags := setTagList u.awstags partNo tag }.awsid = u.awsid ∧
      { u with awstags := setTagList u.awstags partNo tag }.awskey = u.awskey ∧
      { u with awstags := setTagList u.awstags partNo tag }.awsregion =
        u.awsregion ∧
      { u with awstags := setTagList u.awstags partNo tag }.awsname =
        u.awsname ∧
      { u with awstags := setTagList u.awstags partNo tag }.awshost =
        u.awshost ∧
      { u with awstags := setTagList u.awstags partNo tag }.awsuploadid =
        u.awsuploadid) ∧
    (cp + 64 ≤ partNo - 1 →
      u.setTagGo cp partNo tag =
        .error "runtime error: slice bounds out of range") := by
  constructor
  · intro hfit
    have hlen : (setTagList u.awstags partNo tag).length =
        max u.awstags.length partNo := setTagList_length u.awstags partNo tag h
    refine ⟨?_, ?_, hlen, ?_, ?_, rfl, rfl, rfl, rfl, rfl, rfl, rfl, rfl, rfl,
      rfl, rfl⟩
    · show UploadInfo.setTagGo u cp partNo tag = _
      unfold UploadInfo.setTagGo
      rw [setTagGo_ok u.awstags cp partNo tag hfit]
      rfl
    · rw [setTagList_getElem? u.awstags partNo tag h (partNo - 1), if_pos rfl]
    · intro i hne hlt
      rw [setTagList_getElem? u.awstags partNo tag h i, if_neg hne, if_pos hlt]
    · intro i hne hge hlt
      rw [hlen] at hlt
      rw [setTagList_getElem? u.awstags partNo tag h i, if_neg hne,
        if_neg (by omega), if_pos hlt]
  · intro hbig
    have hlen : u.awstags.length ≤ partNo - 1 := by omega
    have hc1 : (if cp ≤ partNo - 1 then cp + 64 else cp) < partNo - 1 + 1 := by
      rw [if_pos (by omega)]
      omega
    show UploadInfo.setTagGo u cp partNo tag = _
    unfold UploadInfo.setTagGo setTagGo
    rw [if_pos hlen, if_pos hc1]
    rfl

/-- Concrete instantiation of `setTagGo_spec`: writing part 3 into a table
that already holds part 1, within capacity. -/
theorem setTagGo_spec_witness :
    (setTagList ({ prepareUploadDefaults with awstags := ["a"] }).awstags
      3 "t")[2]? = some "t" :=
  ((setTagGo_spec { prepareUploadDefaults with awstags := ["a"] } 64 3 "t"
    (by decide) (by decide)).1 (by decide)).2.1

/-! ## Finalization: `awsFinalize` (upload.go, current revision)

```go
func (u *UploadInfo) awsFinalize() error {
    buf := &bytes.Buffer{}
    fmt.Fprintf(buf, "<CompleteMultipartUpload>")
    for n, tag := range u.awstags {
        fmt.Fprintf(buf, "<Part><PartNumber>%d</PartNumber><ETag>%s</ETag></Part>", n+1, tag)
    }
    fmt.Fprintf(buf, "</CompleteMultipartUpload>")
    ...
}
```
The XML body enumerates the table in index order, printing `n+1` as the part
number of index `n`. -/

/-- One `<Part>` element of the completion body. -/
def awsPartXml (partNumber : Nat) (tag : String) : String :=
  "<Part><PartNumber>" ++ toString partNumber ++ "</PartNumber><ETag>" ++ tag ++
    "</ETag></Part>"

/-- The XML body built by `awsFinalize` from the part-tag table. -/
def awsFinalizeBody (tags : List String) : String :=
  "<CompleteMultipartUpload>" ++
    String.join (tags.enum.map fun nt => awsPartXml (nt.1 + 1) nt.2) ++
    "</CompleteMultipartUpload>"

/-- Replaying a sequence of recorded completions `(partNo, tag)` against the
part-tag table, in completion order, starting from the empty table. -/
def runSetTags (calls : List (Nat × String)) : List String :=
  calls.foldl (fun tags c => setTagList tags c.1 c.2) []

theorem foldl_setTagList_length_le (N : Nat) :
    ∀ (calls : List (Nat × String)) (st : List String),
      (∀ c ∈ calls, 1 ≤ c.1 ∧ c.1 ≤ N) → st.length ≤ N →
      (calls.foldl (fun tags c => setTagList tags c.1 c.2) st).length ≤ N := by
  intro calls
  induction calls with
  | nil => intro st _ hst; simpa using hst
  | cons c rest ih =>
    intro st hparts hst
    rw [List.foldl_cons]
    refine ih _ (fun d hd => hparts d (List.mem_cons_of_mem c hd)) ?_
    rw [setTagList_length st c.1 c.2 (hparts c (List.mem_cons_self c rest)).1]
    exact max_le hst (hparts c (List.mem_cons_self c rest)).2

/-- Indices never targeted by any call in the sequence keep their value. -/
theorem foldl_setTagList_frame (i : Nat) :
    ∀ (calls : List (Nat × String)) (st : List String),
      i < st.length → (∀ c ∈ calls, 1 ≤ c.1) → (∀ c ∈ calls, c.1 - 1 ≠ i) →
      (calls.foldl (fun tags c => setTagList tags c.1 c.2) st)[i]? = st[i]? := by
  intro calls
  induction calls with
  | nil => intro st _ _ _; rfl
  | cons c rest ih =>
    intro st hi hparts hmiss
    rw [List.foldl_cons]
    have h1 : 1 ≤ c.1 := hparts c (List.mem_cons_self c rest)
    have hne : i ≠ c.1 - 1 := fun hx => hmiss c (List.mem_cons_self c rest) hx.symm
    have hkeep : (setTagList st c.1 c.2)[i]? = st[i]? := by
      rw [setTagList_getElem? st c.1 c.2 h1 i, if_neg hne, if_pos hi]
    have hlen : i < (setTagList st c.1 c.2).length := by
      rw [setTagList_length st c.1 c.2 h1]
      have := le_max_left st.length c.1
      omega
    rw [ih (setTagList st c.1 c.2) hlen
      (fun d hd => hparts d (List.mem_cons_of_mem c hd))
      (fun d hd => hmiss d (List.mem_cons_of_mem c hd)), hkeep]

/-- If part `p` is recorded exactly once in the sequence, the final table
holds its tag at index `p-1`, whatever the completion order was. -/
theorem foldl_setTagList_lookup (p : Nat) (tg : String) :
    ∀ (calls : List (Nat × String)) (st : List String),
      (p, tg) ∈ calls → (calls.map Prod.fst).Nodup → (∀ c ∈ calls, 1 ≤ c.1) →
      (calls.foldl (fun tags c => setTagList tags c.1 c.2) st)[p - 1]? = some tg := by
  intro calls
  induction calls with
  | nil => intro st hmem _ _; cases hmem
  | cons c rest ih =>
    intro st hmem hnodup hparts
    rw [List.foldl_cons]
    rcases List.mem_cons.mp hmem with heq | hrest
    · have hc : c = (p, tg) := heq.symm
      subst hc
      have h1 : 1 ≤ p := hparts (p, tg) (List.mem_cons_self _ rest)
      have hset : (setTagList st p tg)[p - 1]? = some tg := by
        rw [setTagList_getElem? st p tg h1 (p - 1), if_pos rfl]
      have hlt : p - 1 < (setTagList st p tg).length := by
        rw [setTagList_length st p tg h1]
        have := le_max_right st.length p
        omega
      have hnodup' : (p :: rest.map Prod.fst).Nodup := by
        simpa using hnodup
      have hnotin : p ∉ rest.map Prod.fst := (List.nodup_cons.mp hnodup').1
      rw [foldl_setTagList_frame (p - 1) rest (setTagList st p tg) hlt
        (fun d hd => hparts d (List.mem_cons_of_mem _ hd)) ?_, hset]
      intro d hd hx
      have hd1 : 1 ≤ d.1 := hparts d (List.mem_cons_of_mem _ hd)
      have hdp : d.1 = p := by omega
      exact hnotin (hdp ▸ List.mem_map_of_mem Prod.fst hd)
    · have hnodup' : (c.1 :: rest.map Prod.fst).Nodup := by
        simpa using hnodup
      exact ih (setTagList st c.1 c.2) hrest (List.nodup_cons.mp hnodup').2
        (fun d hd => hparts d (List.mem_cons_of_mem c hd))

/-- Claim C3: when parts `1..N` each record a completion tag, in any completion
order (any permutation of the calls `setTag k (t k)`), the resulting table is
`[t 1, …, t N]`, so the finalize XML body lists the `(partNumber, tag)` pairs
for parts `1..N` in ascending part-number order; the body is determined by `N`
and the tags alone, independent of the recording order. -/
theorem awsFinalize_order_independent (N : Nat) (t : Nat → String)
    (calls : List (Nat × String))
    (hperm : calls.Perm ((List.range N).map fun i => (i + 1, t (i + 1)))) :
    runSetTags calls = (List.range N).map (fun i => t (i + 1)) ∧
    awsFinalizeBody (runSetTags calls) =
      "<CompleteMultipartUpload>" ++
        String.join ((List.range N).map fun i => awsPartXml (i + 1) (t (i + 1))) ++
        "</CompleteMultipartUpload>" := by
  have hcanon : ∀ c ∈ (List.range N).map (fun i => (i + 1, t (i + 1))),
      1 ≤ c.1 ∧ c.1 ≤ N := by
    intro c hc
    rcases List.mem_map.mp hc with ⟨i, hi, rfl⟩
    have := List.mem_range.mp hi
    exact ⟨by omega, by omega⟩
  have hparts : ∀ c ∈ calls, 1 ≤ c.1 ∧ c.1 ≤ N := fun c hc =>
    hcanon c (hperm.mem_iff.mp hc)
  have hkeysnodup : (calls.map Prod.fst).Nodup := by
    have h1 : ((List.range N).map (fun i => (i + 1, t (i + 1)))).map Prod.fst
        = (List.range N).map (fun i => i + 1) := by
      rw [List.map_map]; rfl
    have h2 : ((List.range N).map fun i => i + 1).Nodup :=
      (List.nodup_range N).map (fun a b h => by omega)
    exact ((hperm.map Prod.fst).nodup_iff).mpr (h1 ▸ h2)
  have htable : runSetTags calls = (List.range N).map (fun i => t (i + 1)) := by
    apply List.ext_getElem?
    intro n
    by_cases hn : n < N
    · have hmem : (n + 1, t (n + 1)) ∈ calls :=
        hperm.mem_iff.mpr (List.mem_map.mpr ⟨n, List.mem_range.mpr hn, rfl⟩)
      have hval := foldl_setTagList_lookup (n + 1) (t (n + 1)) calls [] hmem
        hkeysnodup (fun c hc => (hparts c hc).1)
      simp only [Nat.add_sub_cancel] at hval
      rw [runSetTags, hval, List.getElem?_map, List.getElem?_range hn]
      rfl
    · have hlen : (runSetTags calls).length ≤ N :=
        foldl_setTagList_length_le N calls [] hparts (by simp)
      rw [List.getElem?_eq_none_iff.mpr (by omega),
        List.getElem?_eq_none_iff.mpr (by simp; omega)]
  refine ⟨htable, ?_⟩
  have hzip : (List.range N).zip (List.range N)
      = (List.range N).map (fun i => (i, i)) := by
    have := List.zip_map' (id : Nat → Nat) (id : Nat → Nat) (List.range N)
    simpa using this
  have henum : ((List.range N).map (fun i => t (i + 1))).enum
      = (List.range N).map (fun i => (i, t (i + 1))) := by
    rw [List.enum_map, List.enum_eq_zip_range, List.length_range, hzip,
      List.map_map]
    rfl
  rw [htable, awsFinalizeBody, henum, List.map_map]
  rfl

/-- Concrete instantiation of `awsFinalize_order_independent`: parts complete
in the order 3, 1, 2 and the table still reads `[a, b, c]`. -/
theorem awsFinalize_order_independent_witness :
    runSetTags [(3, "c"), (1, "a"), (2, "b")] =
      (List.range 3).map
        (fun i => (fun k => if k = 1 then "a" else if k = 2 then "b" else "c")
          (i + 1)) :=
  (awsFinalize_order_independent 3
    (fun k => if k = 1 then "a" else if k = 2 then "b" else "c")
    [(3, "c"), (1, "a"), (2, "b")] (by decide)).1

/-! ## Strategy selection: `Do` (upload.go, current revision)

```go
func (u *UploadInfo) Do(ctx context.Context, f io.Reader, mimeType string, ln int64) (*Response, error) {
    u.ctx = ctx
    if u.blocksize > 0 {
        return u.partUpload(f, mimeType)
    }
    if u.awsid != "" {
        if ln == -1 || ln > 64*1024*1024 {
            return u.awsUpload(f, mimeType)
        }
    }
    if ln == -1 || ln > 5*1024*1024*1024 {
        return nil, errors.New("cannot upload using PUT method without a known length of less than 5GB")
    }
    ...simple PUT...
}
```
The nested `if u.awsid != "" { if cond { return aws } }` falls through when
either test fails, which is the conjunction written below.  An unknown
length is passed as `ln = -1` by `Upload`/`SpotUpload`. -/

/-- The three wire protocols the selector can pick. -/
inductive Strategy where
  | chunkedPut
  | awsMultipart
  | simplePut
  deriving DecidableEq, Repr

/-- The strategy decision made at the top of `Do`. -/
def selectStrategy (u : UploadInfo) (ln : Int) : Except String Strategy :=
  if u.blocksize > 0 then .ok .chunkedPut
  else if u.awsid ≠ "" ∧ (ln = -1 ∨ ln > 64 * 1024 * 1024) then .ok .awsMultipart
  else if ln = -1 ∨ ln > 5 * 1024 * 1024 * 1024 then
    .error "cannot upload using PUT method without a known length of less than 5GB"
  else .ok .simplePut

/-- Claim C2: the selector deterministically picks exactly one strategy by the
priority rules: a positive `blocksize` always selects chunked PUT; otherwise a
non-empty cloud id (set only when the full cloud quadruple parsed) with unknown
length or length over 64 MiB selects cloud multipart; otherwise a known length
of at most 5 GiB selects single-shot PUT, and an unknown or over-5 GiB length
is a configuration error. -/
theorem selectStrategy_spec (u : UploadInfo) (ln : Int) :
    (u.blocksize > 0 → selectStrategy u ln = .ok .chunkedPut) ∧
    (u.blocksize ≤ 0 → u.awsid ≠ "" → (ln = -1 ∨ ln > 64 * 1024 * 1024) →
      selectStrategy u ln = .ok .awsMultipart) ∧
    (u.blocksize ≤ 0 → (u.awsid = "" ∨ (ln ≠ -1 ∧ ln ≤ 64 * 1024 * 1024)) →
      ln ≠ -1 → ln ≤ 5 * 1024 * 1024 * 1024 →
      selectStrategy u ln = .ok .simplePut) ∧
    (u.blocksize ≤ 0 → (u.awsid = "" ∨ (ln ≠ -1 ∧ ln ≤ 64 * 1024 * 1024)) →
      (ln = -1 ∨ ln > 5 * 1024 * 1024 * 1024) →
      selectStrategy u ln =
        .error "cannot upload using PUT method without a known length of less than 5GB") := by
  refine ⟨?_, ?_, ?_, ?_⟩
  · intro h1
    rw [selectStrategy, if_pos h1]
  · intro h1 h2 h3
    rw [selectStrategy, if_neg (by omega), if_pos ⟨h2, h3⟩]
  · intro h1 h2 h3 h4
    have hc2 : ¬(u.awsid ≠ "" ∧ (ln = -1 ∨ ln > 64 * 1024 * 1024)) := by
      rintro ⟨hne, hlen⟩
      rcases h2 with h | ⟨hn, hle⟩
      · exact hne h
      · rcases hlen with h' | h' <;> omega
    have hc3 : ¬(ln = -1 ∨ ln > 5 * 1024 * 1024 * 1024) := by
      rintro (h | h) <;> omega
    rw [selectStrategy, if_neg (by omega), if_neg hc2, if_neg hc3]
  · intro h1 h2 h3
    have hc2 : ¬(u.awsid ≠ "" ∧ (ln = -1 ∨ ln > 64 * 1024 * 1024)) := by
      rintro ⟨hne, hlen⟩
      rcases h2 with h | ⟨hn, hle⟩
      · exact hne h
      · rcases hlen with h' | h' <;> omega
    rw [selectStrategy, if_neg (by omega), if_neg hc2, if_pos h3]

/-- Concrete instantiation of `selectStrategy_spec`: an unknown-length stream
with a parsed cloud quadruple selects the cloud multipart protocol. -/
theorem selectStrategy_spec_witness :
    selectStrategy { prepareUploadDefaults with awsid := "id123" } (-1) =
      .ok .awsMultipart :=
  (selectStrategy_spec { prepareUploadDefaults with awsid := "id123" } (-1)).2.1
    (by decide) (by decide) (Or.inl rfl)

/-! ## Descriptor parsing: `parse` (upload.go, current revision)

The JSON descriptor is a `map[string]interface{}`; we model the possible
value kinds the parser inspects.  A Go two-result type assertion
`v, ok := x.(T)` fails gracefully; the one-result form `v = x.(T)` panics
when `x` is not a `T` (including when the key is absent and `x` is nil).

`parse` uses the one-result form for `Bucket_Endpoint.Name` and
`Bucket_Endpoint.Host` —

```go
u.awsname = bucket["Name"].(string)
if !ok {            // checks the stale ok of the Region assertion
    return nil
}
u.awshost = bucket["Host"].(string)
if !ok {            // same stale ok
    return nil
}
```

— so those two lookups panic instead of degrading; the `if !ok` guards after
them re-test the `ok` of the earlier `Region` assertion and are dead. -/

/-- JSON-decoded values as seen through Go type assertions. -/
inductive JsonVal where
  | str (s : String)
  | num (x : Int)
  | obj (fields : List (String × JsonVal))
  | boolean (b : Bool)
  | null
  deriving Repr

/-- Map lookup; `none` is Go's nil interface for an absent key. -/
def jget : List (String × JsonVal) → String → Option JsonVal
  | [], _ => none
  | (k, v) :: rest, key => if k = key then some v else jget rest key

/-- How `parse` can fail: a returned `error`, or a run-time panic from a
failed one-result type assertion. -/
inductive ParseFailure where
  | errMsg (s : String)
  | goPanic (s : String)
  deriving DecidableEq, Repr

/-- `parse` (current revision), with the mutation of `u` made explicit;
every `return nil` before `u.awsid = id` keeps the fields assigned so far. -/
def parse (req : List (String × JsonVal)) : Except ParseFailure UploadInfo :=
  match jget req "PUT" with
  | some (.str put) =>
    match jget req "Complete" with
    | some (.str cmpl) =>
      let u := { prepareUploadDefaults with put := put, cmpl := cmpl }
      match jget req "Cloud_Aws_Bucket_Upload__" with
      | some (.str id) =>
        match jget req "Bucket_Endpoint" with
        | some (.obj bucket) =>
          match jget req "Key" with
          | some (.str key) =>
            let u := { u with awskey := key }
            match jget bucket "Region" with
            | some (.str region) =>
              let u := { u with awsregion := region }
              match jget bucket "Name" with
              | some (.str nm) =>
                let u := { u with awsname := nm }
                match jget bucket "Host" with
                | some (.str host) =>
                  .ok { u with awshost := host, awsid := id }
                | _ => .error (.goPanic "interface conversion on Bucket_Endpoint.Host")
              | _ => .error (.goPanic "interface conversion on Bucket_Endpoint.Name")
            | _ => .ok u
          | _ => .ok u
        | _ => .ok u
      | _ =>
        match jget req "Blocksize" with
        | some (.num bs) => .ok { u with blocksize := bs }
        | _ => .ok u
    | _ => .error (.errMsg "required parameter Complete not found")
  | _ => .error (.errMsg "required parameter PUT not found")

/-- A descriptor whose cloud group is incomplete: `Bucket_Endpoint.Name` is
absent while `Region` parsed, reaching the one-result assertion. -/
def c9FailingInput : List (String × JsonVal) :=
  [("PUT", .str "https://example.com/put"),
   ("Complete", .str "Some/Api:complete"),
   ("Cloud_Aws_Bucket_Upload__", .str "id123"),
   ("Key", .str "objkey"),
   ("Bucket_Endpoint", .obj [("Region", .str "us-east-1")])]

/-- The same shape of descriptor stopping one field earlier (`Region`
absent), which does degrade gracefully via the two-result assertion. -/
def c9DegradedInput : List (String × JsonVal) :=
  [("PUT", .str "https://example.com/put"),
   ("Complete", .str "Some/Api:complete"),
   ("Cloud_Aws_Bucket_Upload__", .str "id123"),
   ("Key", .str "objkey"),
   ("Bucket_Endpoint", .obj [])]

/-- Claim C9: the claim (and the comments in `parse` itself) call for a
permissive parse that degrades to single-shot PUT whenever the cloud group is
incomplete, but the code panics when `Bucket_Endpoint.Name` (or `.Host`) is
absent or not a string, because those two lookups use the one-result type
assertion; the neighbouring `Region` field, parsed with the two-result form,
degrades exactly as the claim says. -/
theorem parse_c9_divergence :
    parse c9FailingInput =
      .error (.goPanic "interface conversion on Bucket_Endpoint.Name") ∧
    parse c9DegradedInput =
      .ok { prepareUploadDefaults with
              put := "https://example.com/put",
              cmpl := "Some/Api:complete",
              awskey := "objkey" } :=
  ⟨rfl, rfl⟩

/-! ## Part read phase and part sizing (`partUploadPart` / `awsUploadPart`)

Each part goroutine first spools up to a size limit from the shared reader
with `io.CopyN(tmpf, f, limit)`, then reports on a channel and decides
whether to upload the spool:

`partUploadPart` (chunked PUT):
```go
n, err := io.CopyN(tmpf, f, u.blocksize)
if err != nil {
    if err != io.EOF { errCh <- err; return }
    readCh <- err
    if n == 0 { return }
} else if n == 0 {
    readCh <- io.EOF
    return
} else {
    readCh <- nil
}
```

`awsUploadPart` (cloud multipart) differs only in the `partNo != 1`
exception on the two `n == 0` tests, and in the size limit:
```go
maxLen := u.MaxPartSize          // current revision: no 64*partNo ramp-up
...
n, err := io.CopyN(tmpf, f, maxLen*1024*1024)
```
-/

/-- What the part goroutine sends after its read phase, and where. -/
inductive ChanMsg where
  | errCh (e : GoErr)
  | readCh (e : Option GoErr)
  deriving DecidableEq, Repr

/-- Outcome of the read phase: the channel message plus whether the goroutine
goes on to upload the spooled bytes. -/
structure ReadPhase where
  sent : ChanMsg
  uploads : Bool
  deriving DecidableEq, Repr

/-- Read-phase dispatch of `partUploadPart` (chunked PUT); the part number is
not consulted. -/
def partUploadReadPhase (n : Nat) (copyErr : Option GoErr) : ReadPhase :=
  match copyErr with
  | some e =>
    if e ≠ .eof then ⟨.errCh e, false⟩
    else if n = 0 then ⟨.readCh (some .eof), false⟩
    else ⟨.readCh (some .eof), true⟩
  | none =>
    if n = 0 then ⟨.readCh (some .eof), false⟩
    else ⟨.readCh none, true⟩

/-- Read-phase dispatch of `awsUploadPart` (cloud multipart): identical except
that part 1 is exempt from the empty-read bailout. -/
def awsUploadReadPhase (partNo : Nat) (n : Nat) (copyErr : Option GoErr) : ReadPhase :=
  match copyErr with
  | some e =>
    if e ≠ .eof then ⟨.errCh e, false⟩
    else if n = 0 ∧ partNo ≠ 1 then ⟨.readCh (some .eof), false⟩
    else ⟨.readCh (some .eof), true⟩
  | none =>
    if n = 0 ∧ partNo ≠ 1 then ⟨.readCh (some .eof), false⟩
    else ⟨.readCh none, true⟩

/-- Sizes of the parts actually uploaded by the chunked-PUT dispatch loop on a
stream of `rem` bytes: the reads are sequential (the loop waits on `readCh`
before spawning the next part), `io.CopyN` yields `(bs, nil)` while at least
`bs` bytes remain and `(rem, io.EOF)` otherwise, and an EOF report ends the
loop. -/
def chunkedParts (bs : Nat) (hbs : 0 < bs) (rem : Nat) : List Nat :=
  if h : rem < bs then
    if rem = 0 then [] else [rem]
  else
    bs :: chunkedParts bs hbs (rem - bs)
termination_by rem
decreasing_by omega

/-- Sizes of the parts uploaded by the cloud multipart dispatch loop, with
`cap` the byte limit of each spool read and parts numbered from `partNo`. -/
def awsParts (cap : Nat) (hcap : 0 < cap) (partNo : Nat) (rem : Nat) : List Nat :=
  if h : rem < cap then
    if rem = 0 ∧ partNo ≠ 1 then [] else [rem]
  else
    cap :: awsParts cap hcap (partNo + 1) (rem - cap)
termination_by rem
decreasing_by omega

/-- Claim C5 counterexample: under the chunked-PUT protocol an empty stream
produces zero parts, not one: the part-1 goroutine reads `(0, io.EOF)`,
reports EOF and returns without uploading (`if n == 0 { return }` has no
part-1 exception), so the claim that part 1 is always sent fails there. -/
theorem chunked_empty_stream_counterexample :
    chunkedParts 262144 (by norm_num) 0 = [] ∧
    partUploadReadPhase 0 (some .eof) = ⟨.readCh (some .eof), false⟩ ∧
    ((chunkedParts 262144 (by norm_num) 0).length == 1) = false := by
  refine ⟨?_, rfl, ?_⟩ <;> simp [chunkedParts]

/-- Claim C5 amended: under the cloud multipart protocol a zero-length stream
produces exactly one empty part (part 1 is sent even though its read returns
zero bytes); under the chunked-PUT protocol the same stream produces zero
parts, the part-1 goroutine returning without an upload after the empty
read. -/
theorem empty_stream_parts (bs cap : Nat) (hbs : 0 < bs) (hcap : 0 < cap) :
    awsParts cap hcap 1 0 = [0] ∧
    awsUploadReadPhase 1 0 (some .eof) = ⟨.readCh (some .eof), true⟩ ∧
    chunkedParts bs hbs 0 = [] ∧
    partUploadReadPhase 0 (some .eof) = ⟨.readCh (some .eof), false⟩ := by
  refine ⟨?_, rfl, ?_, rfl⟩ <;> simp [awsParts, chunkedParts, hbs, hcap]

/-- Concrete instantiation of `empty_stream_parts` at a 256 KiB block size
and the default 1 GiB part cap. -/
theorem empty_stream_parts_witness :
    awsParts (1024 * 1024 * 1024) (by norm_num) 1 0 = [0] :=
  (empty_stream_parts 262144 (1024 * 1024 * 1024) (by norm_num) (by norm_num)).1

/-- `maxLen` (in MB) of the spool read in the current `awsUploadPart`:
`maxLen := u.MaxPartSize`, with no dependence on the part number. -/
def awsPartMaxLen (u : UploadInfo) (partNo : Int) : Int := u.MaxPartSize

/-- The byte limit handed to `io.CopyN`: `maxLen*1024*1024`. -/
def awsSpoolLimit (u : UploadInfo) (partNo : Int) : Int :=
  awsPartMaxLen u partNo * 1024 * 1024

/-- The per-part limit (in MB) that the claim describes — `64·partNo` capped
at `MaxPartSize` and floored at 5 — which only the previous revision of
`awsUploadPart` computed. -/
def claimedAwsPartMaxLen (maxPartSize partNo : Int) : Int :=
  max 5 (min (64 * partNo) maxPartSize)

/-- Claim C6 counterexample: with the default `MaxPartSize = 1024`, part 1's
spool limit in the current code is 1024 MiB, not the 64 MiB the claim's
`64 × partNumber` formula yields. -/
theorem awsPartMaxLen_counterexample :
    awsPartMaxLen prepareUploadDefaults 1 = 1024 ∧
    claimedAwsPartMaxLen prepareUploadDefaults.MaxPartSize 1 = 64 ∧
    (awsPartMaxLen prepareUploadDefaults 1 ==
      claimedAwsPartMaxLen prepareUploadDefaults.MaxPartSize 1) = false := by
  refine ⟨rfl, by decide, by decide⟩

/-- Claim C6 amended: in the current `awsUploadPart` the maximum byte size
read into the spool is `MaxPartSize` MiB (default 1024 MiB) for every part,
independent of the part number; no ramp-up and no 5 MiB minimum is applied. -/
theorem awsSpoolLimit_constant (u : UploadInfo) (p q : Int) :
    awsSpoolLimit u p = u.MaxPartSize * 1024 * 1024 ∧
    awsSpoolLimit u p = awsSpoolLimit u q ∧
    awsPartMaxLen prepareUploadDefaults p = 1024 :=
  ⟨rfl, rfl, rfl⟩

/-! ## Retry/backoff: the attempt loops of `awsUploadPart` and `partUploadPart`

Both loops are `for attempt := 0; attempt < maxRetries; attempt++` with
`maxRetries = 5` and `baseDelay = time.Second`.  In `awsUploadPart`:

```go
resp, err := u.awsReq("PUT", ..., tmpf, nil)
if err != nil {
    if errors.Is(err, ErrUploadStalled) || errors.Is(err, context.Canceled) || errors.Is(err, context.DeadlineExceeded) {
        if attempt < maxRetries-1 { continue }          // immediate retry
    }
    if attempt < maxRetries-1 {
        delay := baseDelay * time.Duration(1<<uint(attempt))
        if delay > 30*time.Second { delay = 30 * time.Second }
        time.Sleep(delay)
        continue
    }
    select { case errCh <- err: default: }               // raw error surfaced
    return
}
```
`partUploadPart` is the same shape but its immediate-retry test is only
`errors.Is(err, ErrUploadStalled)` — cancellation takes the backoff path —
and it has an extra fallible step (`http.NewRequestWithContext`) that also
backs off.  In both loops every iteration either continues or returns, and
the final iteration (`attempt = 4`) always returns, so the
`fmt.Errorf("... failed after %d attempts ...")` lines after the loops are
unreachable.

The loops are embedded with the remaining-attempt count as the structural
recursion argument: at `remaining = r + 1`, the source guard
`attempt < maxRetries` holds, and `attempt < maxRetries-1` is `0 < r`. -/

/-- Result of the body of one `awsUploadPart` attempt, as decided by the
network: the signed request failed, the response body read failed, or the
part was stored and an Etag returned. -/
inductive AwsAttempt where
  | reqErr (e : GoErr)
  | respReadErr (e : GoErr)
  | ok (etag : String)
  deriving DecidableEq, Repr

/-- Result of the body of one `partUploadPart` attempt. -/
inductive PartAttempt where
  | newReqErr (e : GoErr)
  | doErr (e : GoErr)
  | respReadErr (e : GoErr)
  | ok
  deriving DecidableEq, Repr

/-- Terminal outcome of a retry loop: success, the raw error of the last
attempt sent on `errCh`, or the post-loop formatted error. -/
inductive PartResult where
  | success (etag : String)
  | failed (e : GoErr)
  | exhausted (msg : String)
  deriving DecidableEq, Repr

/-- A whole run of the loop: its outcome, the backoff sleeps performed (in
seconds, in order), and how many attempts ran. -/
structure RetryRun where
  result : PartResult
  delays : List Nat
  attemptsUsed : Nat
  deriving DecidableEq, Repr

/-- `delay := baseDelay * (1 << attempt); if delay > 30s { delay = 30s }`,
in seconds. -/
def backoffDelay (attempt : Nat) : Nat := min 30 (2 ^ attempt)

/-- The errors given an immediate retry by `awsUploadPart`. -/
def GoErr.isStallOrCtx : GoErr → Bool
  | .uploadStalled => true
  | .canceled => true
  | .deadlineExceeded => true
  | _ => false

/-- The retry loop of `awsUploadPart`; `outcomes a` is what attempt `a`
does.  First argument of the recursion: attempts remaining. -/
def awsRetryLoop (partNo : Nat) (outcomes : Nat → AwsAttempt) :
    Nat → Nat → RetryRun
  | 0, _ =>
    { result := .exhausted ("AWS upload failed after 5 attempts for part " ++
        toString partNo),
      delays := [], attemptsUsed := 0 }
  | r + 1, attempt =>
    match outcomes attempt with
    | .ok etag => { result := .success etag, delays := [], attemptsUsed := 1 }
    | .reqErr e =>
      if e.isStallOrCtx ∧ 0 < r then
        let rest := awsRetryLoop partNo outcomes r (attempt + 1)
        { rest with attemptsUsed := rest.attemptsUsed + 1 }
      else if 0 < r then
        let rest := awsRetryLoop partNo outcomes r (attempt + 1)
        { result := rest.result, delays := backoffDelay attempt :: rest.delays,
          attemptsUsed := rest.attemptsUsed + 1 }
      else { result := .failed e, delays := [], attemptsUsed := 1 }
    | .respReadErr e =>
      if 0 < r then
        let rest := awsRetryLoop partNo outcomes r (attempt + 1)
        { result := rest.result, delays := backoffDelay attempt :: rest.delays,
          attemptsUsed := rest.attemptsUsed + 1 }
      else { result := .failed e, delays := [], attemptsUsed := 1 }

/-- Entry point: five attempts starting at attempt index 0. -/
def awsUploadRetry (partNo : Nat) (outcomes : Nat → AwsAttempt) : RetryRun :=
  awsRetryLoop partNo outcomes 5 0

/-- The retry loop of `partUploadPart`: only `ErrUploadStalled` is retried
immediately; a failed `http.NewRequestWithContext` also backs off. -/
def partRetryLoop (outcomes : Nat → PartAttempt) : Nat → Nat → RetryRun
  | 0, _ =>
    { result := .exhausted "upload failed after 5 attempts",
      delays := [], attemptsUsed := 0 }
  | r + 1, attempt =>
    match outcomes attempt with
    | .ok => { result := .success "", delays := [], attemptsUsed := 1 }
    | .newReqErr e =>
      if 0 < r then
        let rest := partRetryLoop outcomes r (attempt + 1)
        { result := rest.result, delays := backoffDelay attempt :: rest.delays,
          attemptsUsed := rest.attemptsUsed + 1 }
      else { result := .failed e, delays := [], attemptsUsed := 1 }
    | .doErr e =>
      if e = .uploadStalled ∧ 0 < r then
        let rest := partRetryLoop outcomes r (attempt + 1)
        { rest with attemptsUsed := rest.attemptsUsed + 1 }
      else if 0 < r then
        let rest := partRetryLoop outcomes r (attempt + 1)
        { result := rest.result, delays := backoffDelay attempt :: rest.delays,
          attemptsUsed := rest.attemptsUsed + 1 }
      else { result := .failed e, delays := [], attemptsUsed := 1 }
    | .respReadErr e =>
      if 0 < r then
        let rest := partRetryLoop outcomes r (attempt + 1)
        { result := rest.result, delays := backoffDelay attempt :: rest.delays,
          attemptsUsed := rest.attemptsUsed + 1 }
      else { result := .failed e, delays := [], attemptsUsed := 1 }

/-- Entry point: five attempts starting at attempt index 0. -/
def partUploadRetry (outcomes : Nat → PartAttempt) : RetryRun :=
  partRetryLoop outcomes 5 0

theorem awsRetryLoop_attempts_le (partNo : Nat) (o : Nat → AwsAttempt) :
    ∀ r a, (awsRetryLoop partNo o r a).attemptsUsed ≤ r := by
  intro r
  induction r with
  | zero => intro a; simp [awsRetryLoop]
  | succ r ih =>
    intro a
    cases ho : o a with
    | ok etag => simp [awsRetryLoop, ho]
    | reqErr e =>
      simp only [awsRetryLoop, ho]
      split_ifs with h1 h2 <;> dsimp only <;>
        · have hle := ih (a + 1)
          omega
    | respReadErr e =>
      simp only [awsRetryLoop, ho]
      split_ifs with h1 <;> dsimp only <;>
        · have hle := ih (a + 1)
          omega

theorem partRetryLoop_attempts_le (o : Nat → PartAttempt) :
    ∀ r a, (partRetryLoop o r a).attemptsUsed ≤ r := by
  intro r
  induction r with
  | zero => intro a; simp [partRetryLoop]
  | succ r ih =>
    intro a
    cases ho : o a with
    | ok => simp [partRetryLoop, ho]
    | newReqErr e =>
      simp only [partRetryLoop, ho]
      split_ifs with h1 <;> dsimp only <;>
        · have hle := ih (a + 1)
          omega
    | doErr e =>
      simp only [partRetryLoop, ho]
      split_ifs with h1 h2 <;> dsimp only <;>
        · have hle := ih (a + 1)
          omega
    | respReadErr e =>
      simp only [partRetryLoop, ho]
      split_ifs with h1 <;> dsimp only <;>
        · have hle := ih (a + 1)
          omega

theorem awsRetryLoop_delays (partNo : Nat) (o : Nat → AwsAttempt) :
    ∀ r a, r + a ≤ 5 →
      ∀ d ∈ (awsRetryLoop partNo o r a).delays, ∃ i, i < 4 ∧ d = backoffDelay i := by
  intro r
  induction r with
  | zero => intro a _ d hd; simp [awsRetryLoop] at hd
  | succ r ih =>
    intro a hr d hd
    cases ho : o a with
    | ok etag => simp [awsRetryLoop, ho] at hd
    | reqErr e =>
      simp only [awsRetryLoop, ho] at hd
      split_ifs at hd with h1 h2
      · exact ih (a + 1) (by omega) d hd
      · dsimp only at hd
        rcases List.mem_cons.mp hd with rfl | hd'
        · exact ⟨a, by omega, rfl⟩
        · exact ih (a + 1) (by omega) d hd'
      · simp at hd
    | respReadErr e =>
      simp only [awsRetryLoop, ho] at hd
      split_ifs at hd with h1
      · dsimp only at hd
        rcases List.mem_cons.mp hd with rfl | hd'
        · exact ⟨a, by omega, rfl⟩
        · exact ih (a + 1) (by omega) d hd'
      · simp at hd

theorem partRetryLoop_delays (o : Nat → PartAttempt) :
    ∀ r a, r + a ≤ 5 →
      ∀ d ∈ (partRetryLoop o r a).delays, ∃ i, i < 4 ∧ d = backoffDelay i := by
  intro r
  induction r with
  | zero => intro a _ d hd; simp [partRetryLoop] at hd
  | succ r ih =>
    intro a hr d hd
    cases ho : o a with
    | ok => simp [partRetryLoop, ho] at hd
    | newReqErr e =>
      simp only [partRetryLoop, ho] at hd
      split_ifs at hd with h1
      · dsimp only at hd
        rcases List.mem_cons.mp hd with rfl | hd'
        · exact ⟨a, by omega, rfl⟩
        · exact ih (a + 1) (by omega) d hd'
      · simp at hd
    | doErr e =>
      simp only [partRetryLoop, ho] at hd
      split_ifs at hd with h1 h2
      · exact ih (a + 1) (by omega) d hd
      · dsimp only at hd
        rcases List.mem_cons.mp hd with rfl | hd'
        · exact ⟨a, by omega, rfl⟩
        · exact ih (a + 1) (by omega) d hd'
      · simp at hd
    | respReadErr e =>
      simp only [partRetryLoop, ho] at hd
      split_ifs at hd with h1
      · dsimp only at hd
        rcases List.mem_cons.mp hd with rfl | hd'
        · exact ⟨a, by omega, rfl⟩
        · exact ih (a + 1) (by omega) d hd'
      · simp at hd

/-- The loop always returns from inside one of the five iterations: the
post-loop `fmt.Errorf` is dead code. -/
theorem awsRetryLoop_no_exhausted (partNo : Nat) (o : Nat → AwsAttempt) :
    ∀ r a, 0 < r → ∀ m, (awsRetryLoop partNo o r a).result ≠ .exhausted m := by
  intro r
  induction r with
  | zero => intro a h; omega
  | succ r ih =>
    intro a _ m
    cases ho : o a with
    | ok etag => simp [awsRetryLoop, ho]
    | reqErr e =>
      simp only [awsRetryLoop, ho]
      split_ifs with h1 h2 <;> dsimp only
      · exact ih (a + 1) h1.2 m
      · exact ih (a + 1) h2 m
      · simp
    | respReadErr e =>
      simp only [awsRetryLoop, ho]
      split_ifs with h1 <;> dsimp only
      · exact ih (a + 1) h1 m
      · simp

theorem partRetryLoop_no_exhausted (o : Nat → PartAttempt) :
    ∀ r a, 0 < r → ∀ m, (partRetryLoop o r a).result ≠ .exhausted m := by
  intro r
  induction r with
  | zero => intro a h; omega
  | succ r ih =>
    intro a _ m
    cases ho : o a with
    | ok => simp [partRetryLoop, ho]
    | newReqErr e =>
      simp only [partRetryLoop, ho]
      split_ifs with h1 <;> dsimp only
      · exact ih (a + 1) h1 m
      · simp
    | doErr e =>
      simp only [partRetryLoop, ho]
      split_ifs with h1 h2 <;> dsimp only
      · exact ih (a + 1) h1.2 m
      · exact ih (a + 1) h2 m
      · simp
    | respReadErr e =>
      simp only [partRetryLoop, ho]
      split_ifs with h1 <;> dsimp only
      · exact ih (a + 1) h1 m
      · simp

/-- When every attempt's request errors, the surfaced terminal outcome is the
raw error of the final attempt, after using every remaining attempt. -/
theorem awsRetryLoop_all_fail (partNo : Nat) (o : Nat → AwsAttempt)
    (e : Nat → GoErr) (he : ∀ a, o a = .reqErr (e a)) :
    ∀ r a, 0 < r →
      (awsRetryLoop partNo o r a).result = .failed (e (a + r - 1)) ∧
      (awsRetryLoop partNo o r a).attemptsUsed = r := by
  intro r
  induction r with
  | zero => intro a h; omega
  | succ r ih =>
    intro a _
    have hx : a + 1 + r - 1 = a + (r + 1) - 1 := by omega
    simp only [awsRetryLoop, he a]
    split_ifs with h1 h2
    · dsimp only
      have := ih (a + 1) h1.2
      exact ⟨by rw [this.1, hx], by rw [this.2]⟩
    · dsimp only
      have := ih (a + 1) h2
      exact ⟨by rw [this.1, hx], by rw [this.2]⟩
    · have hr : r = 0 := by omega
      subst hr
      exact ⟨rfl, rfl⟩

/-- With only stall/cancellation request errors, every retry is immediate:
no sleeps at all. -/
theorem awsRetryLoop_stall_immediate (partNo : Nat) (o : Nat → AwsAttempt)
    (e : Nat → GoErr) (he : ∀ a, o a = .reqErr (e a))
    (hst : ∀ a, (e a).isStallOrCtx = true) :
    ∀ r a, 0 < r →
      awsRetryLoop partNo o r a =
        { result := .failed (e (a + r - 1)), delays := [], attemptsUsed := r } := by
  intro r
  induction r with
  | zero => intro a h; omega
  | succ r ih =>
    intro a _
    have hx : a + 1 + r - 1 = a + (r + 1) - 1 := by omega
    simp only [awsRetryLoop, he a]
    split_ifs with h1 h2
    · rw [ih (a + 1) h1.2, hx]
    · exact absurd ⟨hst a, h2⟩ h1
    · have hr : r = 0 := by omega
      subst hr
      rfl

/-- Claim C4 counterexample: a part whose every attempt fails with the
cancellation error.  In the chunked-PUT loop the immediate-retry test is only
`errors.Is(err, ErrUploadStalled)`, so cancellation takes the backoff path and
sleeps 1 s, 2 s, 4 s, 8 s — not the immediate, no-delay retry the claim
requires of both protocols (the cloud loop does retry it immediately).  The
terminal error is also the raw last error, not a message naming the part and
attempt count. -/
theorem retry_cancellation_counterexample :
    partUploadRetry (fun _ => .doErr .canceled) =
      { result := .failed .canceled, delays := [1, 2, 4, 8], attemptsUsed := 5 } ∧
    awsUploadRetry 9 (fun _ => .reqErr .canceled) =
      { result := .failed .canceled, delays := [], attemptsUsed := 5 } ∧
    ((partUploadRetry (fun _ => .doErr .canceled)).delays == []) = false :=
  ⟨rfl, rfl, rfl⟩

/-- Claim C4 amended: each part-upload loop makes at most 5 attempts; every
sleep it performs equals `min(30s, 1s·2^attempt)` for some attempt index;
the post-loop "failed after N attempts" error is unreachable, so exhausting
all attempts surfaces exactly the final attempt's raw error; stall and
cancellation and deadline request errors retry immediately with no delay in
the cloud multipart loop, while the chunked-PUT loop gives only the stall
error an immediate retry. -/
theorem retry_policy_spec (partNo : Nat) (oa : Nat → AwsAttempt)
    (oc : Nat → PartAttempt) (ea : Nat → GoErr) :
    (awsUploadRetry partNo oa).attemptsUsed ≤ 5 ∧
    (partUploadRetry oc).attemptsUsed ≤ 5 ∧
    (∀ d ∈ (awsUploadRetry partNo oa).delays, ∃ i, i < 4 ∧ d = backoffDelay i) ∧
    (∀ d ∈ (partUploadRetry oc).delays, ∃ i, i < 4 ∧ d = backoffDelay i) ∧
    (∀ m, (awsUploadRetry partNo oa).result ≠ .exhausted m) ∧
    (∀ m, (partUploadRetry oc).result ≠ .exhausted m) ∧
    ((∀ a, oa a = .reqErr (ea a)) →
      (awsUploadRetry partNo oa).result = .failed (ea 4) ∧
      (awsUploadRetry partNo oa).attemptsUsed = 5) ∧
    ((∀ a, oa a = .reqErr (ea a)) → (∀ a, (ea a).isStallOrCtx = true) →
      awsUploadRetry partNo oa =
        { result := .failed (ea 4), delays := [], attemptsUsed := 5 }) ∧
    partUploadRetry (fun _ => .doErr .uploadStalled) =
      { result := .failed .uploadStalled, delays := [], attemptsUsed := 5 } := by
  refine ⟨awsRetryLoop_attempts_le partNo oa 5 0, partRetryLoop_attempts_le oc 5 0,
    awsRetryLoop_delays partNo oa 5 0 (by omega),
    partRetryLoop_delays oc 5 0 (by omega),
    fun m => awsRetryLoop_no_exhausted partNo oa 5 0 (by omega) m,
    fun m => partRetryLoop_no_exhausted oc 5 0 (by omega) m,
    fun he => awsRetryLoop_all_fail partNo oa ea he 5 0 (by omega),
    fun he hst => awsRetryLoop_stall_immediate partNo oa ea he hst 5 0 (by omega),
    rfl⟩

/-- Concrete instantiation of `retry_policy_spec`: five transient failures
surface the raw error of attempt 4 after exactly 5 attempts. -/
theorem retry_policy_spec_witness :
    (awsUploadRetry 7 (fun _ => .reqErr (.other "boom"))).result =
      .failed (.other "boom") ∧
    (awsUploadRetry 7 (fun _ => .reqErr (.other "boom"))).attemptsUsed = 5 :=
  (retry_policy_spec 7 (fun _ => .reqErr (.other "boom")) (fun _ => .ok)
    (fun _ => .other "boom")).2.2.2.2.2.2.1 (fun _ => rfl)

/-! ## Stall detection: `stallDetectReader.Read`

```go
select {
case <-sr.closed:
    return 0, io.ErrClosedPipe
case <-sr.ctx.Done():
    return 0, sr.ctx.Err()
case <-timer.C:
    if sr.bytesInPeriod < sr.stallThreshold {
        return 0, ErrUploadStalled
    }
    sr.bytesInPeriod = 0
    sr.lastProgress = time.Now()
    res := <-readCh                       // blocks for the real read
    sr.bytesInPeriod += int64(res.n)
    return res.n, res.err
case res := <-readCh:
    sr.bytesInPeriod += int64(res.n)
    if time.Since(sr.lastProgress) > sr.stallTimeout {
        if sr.bytesInPeriod < sr.stallThreshold {
            return res.n, ErrUploadStalled
        }
        sr.bytesInPeriod = 0
        sr.lastProgress = time.Now()
    }
    return res.n, res.err
}
```
The select race and the clock are external inputs; a `Read` call is a pure
function of the current `bytesInPeriod` window counter, which branch won the
race, the underlying read's result, and (in the read-first branch) whether
`time.Since(sr.lastProgress) > sr.stallTimeout`. -/

/-- Constructor defaults from `newStallDetectReader`: 30 s timeout. -/
def stallTimeoutSeconds : Nat := 30

/-- Constructor defaults from `newStallDetectReader`: 150 KiB threshold. -/
def stallThreshold : Int := 150 * 1024

/-- An `(n, err)` pair as returned by an `io.Reader`. -/
structure ReadRes where
  n : Int
  err : Option GoErr
  deriving DecidableEq, Repr

/-- Which `select` branch fires, with the data the code then consumes: after
the timer fires the code may still block for the read result `res`; when the
read wins, `windowExpired` is `time.Since(sr.lastProgress) > sr.stallTimeout`. -/
inductive ReadRace where
  | closedFirst
  | ctxDoneFirst (e : GoErr)
  | timerFirst (res : ReadRes)
  | readFirst (res : ReadRes) (windowExpired : Bool)
  deriving DecidableEq, Repr

/-- One `Read` call of the stall-detecting reader: the `(n, err)` returned to
the caller and the new `bytesInPeriod` window counter. -/
def stallDetectRead (threshold : Int) (bytesInPeriod : Int) :
    ReadRace → ReadRes × Int
  | .closedFirst => (⟨0, some .closedPipe⟩, bytesInPeriod)
  | .ctxDoneFirst e => (⟨0, some e⟩, bytesInPeriod)
  | .timerFirst res =>
    if bytesInPeriod < threshold then (⟨0, some .uploadStalled⟩, bytesInPeriod)
    else (res, res.n)
  | .readFirst res expired =>
    if expired then
      if bytesInPeriod + res.n < threshold then
        (⟨res.n, some .uploadStalled⟩, bytesInPeriod + res.n)
      else (res, 0)
    else (res, bytesInPeriod + res.n)

/-- Claim C8 counterexample: the underlying read completes *before* the timer
with the real result `(10, nil)`, but the window had expired with under 150
KiB accumulated, so `Read` returns `ErrUploadStalled` instead of the real
result — the claim's "otherwise the real read result is returned" fails.
(The timer also did not fire before the read, so the claim's stall condition
is not met either.) -/
theorem stall_read_counterexample :
    stallDetectRead stallThreshold 0 (.readFirst ⟨10, none⟩ true) =
      (⟨10, some .uploadStalled⟩, 10) ∧
    ((stallDetectRead stallThreshold 0 (.readFirst ⟨10, none⟩ true)).1.err
      == none) = false := by
  constructor
  · simp [stallDetectRead, stallThreshold]
  · simp [stallDetectRead, stallThreshold]

/-- Claim C8 amended: if the stall timer (default 30 s) fires before the read
completes and fewer than the threshold (default 150 KiB) bytes are in the
window, `Read` returns `ErrUploadStalled`; if the timer fires with enough
progress, the window resets and the real result is returned (after blocking
for it).  When the read finishes first, the real result is returned — with
the window counter accumulating, and resetting only when the window had
expired with enough progress — except that an expired window with fewer than
the threshold bytes (including the just-read ones) also yields
`ErrUploadStalled` alongside the byte count.  A closed reader returns
`io.ErrClosedPipe`; a done context returns its error. -/
theorem stall_read_spec (threshold b : Int) (res : ReadRes) (e : GoErr) :
    (b < threshold →
      stallDetectRead threshold b (.timerFirst res) =
        (⟨0, some .uploadStalled⟩, b)) ∧
    (threshold ≤ b →
      stallDetectRead threshold b (.timerFirst res) = (res, res.n)) ∧
    stallDetectRead threshold b (.readFirst res false) = (res, b + res.n) ∧
    (b + res.n < threshold →
      stallDetectRead threshold b (.readFirst res true) =
        (⟨res.n, some .uploadStalled⟩, b + res.n)) ∧
    (threshold ≤ b + res.n →
      stallDetectRead threshold b (.readFirst res true) = (res, 0)) ∧
    stallDetectRead threshold b (.ctxDoneFirst e) = (⟨0, some e⟩, b) ∧
    stallDetectRead threshold b .closedFirst = (⟨0, some .closedPipe⟩, b) ∧
    stallTimeoutSeconds = 30 ∧ stallThreshold = 150 * 1024 := by
  refine ⟨?_, ?_, rfl, ?_, ?_, rfl, rfl, rfl, rfl⟩
  · intro h
    simp [stallDetectRead, h]
  · intro h
    simp [stallDetectRead, not_lt.mpr h]
  · intro h
    simp [stallDetectRead, h]
  · intro h
    simp [stallDetectRead, not_lt.mpr h]

/-- Concrete instantiation of `stall_read_spec`: a timer firing on an idle
window yields the stalled error. -/
theorem stall_read_spec_witness :
    stallDetectRead stallThreshold 0 (.timerFirst ⟨64, none⟩) =
      (⟨0, some .uploadStalled⟩, 0) :=
  (stall_read_spec stallThreshold 0 ⟨64, none⟩ .eof).1 (by decide)

/-! ## The cloud storage signer: `awsReq` (upload.go, current revision)

`awsReq` hashes the body, stamps `X-Amz-Content-Sha256` and `X-Amz-Date`,
builds `awsAuthStr` and sends `strings.Join(awsAuthStr, "\n")` as the
`headers` parameter of the `...:signV4` RPC.  String helpers used by the
embedding: `sort.Strings` sorts ascending in byte order, written out here as
an insertion sort under an explicit byte comparison (header names are ASCII,
where code points and bytes agree); `strings.ToLower` maps characters;
`strings.HasPrefix(s, "x-")` inspects the first two characters;
`http.Header` keeps canonical-form keys and `Get` looks a key up
case-insensitively, `Set` replaces it. -/

/-- Lexicographic byte-order `≤` on character lists. -/
def charListLe : List Char → List Char → Bool
  | [], _ => true
  | _ :: _, [] => false
  | a :: as, b :: bs =>
    if a.toNat < b.toNat then true
    else if b.toNat < a.toNat then false
    else charListLe as bs

/-- `≤` on strings in byte order, as `sort.Strings` compares. -/
def strLe (a b : String) : Bool := charListLe a.data b.data

theorem charListLe_total : ∀ as bs : List Char,
    charListLe as bs = true ∨ charListLe bs as = true := by
  intro as
  induction as with
  | nil => intro bs; left; rfl
  | cons a as ih =>
    intro bs
    cases bs with
    | nil => right; rfl
    | cons b bs =>
      by_cases hab : a.toNat < b.toNat
      · left; simp [charListLe, hab]
      · by_cases hba : b.toNat < a.toNat
        · right; simp [charListLe, hba]
        · rcases ih bs with h | h
          · left; simp [charListLe, hab, hba, h]
          · right; simp [charListLe, hab, hba, h]

theorem charListLe_trans : ∀ as bs cs : List Char,
    charListLe as bs = true → charListLe bs cs = true → charListLe as cs = true := by
  intro as
  induction as with
  | nil => intro bs cs _ _; rfl
  | cons a as ih =>
    intro bs cs hab hbc
    cases bs with
    | nil => simp [charListLe] at hab
    | cons b bs =>
      cases cs with
      | nil => simp [charListLe] at hbc
      | cons c cs =>
        simp only [charListLe] at hab hbc ⊢
        by_cases h1 : a.toNat < b.toNat <;> by_cases h2 : b.toNat < c.toNat <;>
          simp [h1, h2] at hab hbc ⊢
        · omega
        · rcases hbc with ⟨h3, hbc⟩
          have : a.toNat < c.toNat := by omega
          simp [this]
        · rcases hab with ⟨h3, hab⟩
          have : a.toNat < c.toNat := by omega
          simp [this]
        · rcases hab with ⟨h3, hab⟩
          rcases hbc with ⟨h4, hbc⟩
          have h5 : ¬a.toNat < c.toNat := by omega
          have h6 : ¬c.toNat < a.toNat := by omega
          simp [h5, h6]
          exact ⟨by omega, ih bs cs hab hbc⟩

instance : IsTotal String (fun a b => strLe a b = true) :=
  ⟨fun a b => charListLe_total a.data b.data⟩

instance : IsTrans String (fun a b => strLe a b = true) :=
  ⟨fun a b c => charListLe_trans a.data b.data c.data⟩

/-- `sort.Strings`: the ascending byte-order sort of a string slice. -/
def sortStrings (l : List String) : List String :=
  List.insertionSort (fun a b => strLe a b = true) l

/-- `strings.ToLower` over the character list. -/
def lowerStr (s : String) : String := ⟨s.data.map Char.toLower⟩

/-- `strings.HasPrefix(s, "x-")`. -/
def hasXDash (s : String) : Bool :=
  match s.data with
  | 'x' :: '-' :: _ => true
  | _ => false

/-- `http.Header.Get`: case-insensitive lookup (Go canonicalizes the key);
returns the empty string when the header is absent. -/
def hGet (headers : List (String × String)) (key : String) : String :=
  match headers.find? (fun kv => lowerStr kv.1 == lowerStr key) with
  | some kv => kv.2
  | none => ""

/-- `http.Header.Set`: replace any existing entry for the key.  The map has
no useful order; every later use is either a `Get` or sorted. -/
def hSet (headers : List (String × String)) (key val : String) :
    List (String × String) :=
  (key, val) :: headers.filter (fun kv => !(lowerStr kv.1 == lowerStr key))

/-- The sorted signed-header names: `"host"` plus the lowercased name of
every header starting with `x-`, through `sort.Strings`.  (The Go map
iteration order is irrelevant: a sort of the collected names depends only on
which names are present.) -/
def signHeadNames (headers : List (String × String)) : List String :=
  sortStrings ("host" :: (headers.map (fun kv => lowerStr kv.1)).filter hasXDash)

/-- `awsAuthStr` exactly as `awsReq` appends it, for an already-stamped
header set: the fixed algorithm line, timestamp, date-scope, method,
bucket-relative path, query, the host line, the value line of each signed
header other than host in sorted order, an empty element, the semicolon
join of the signed-header names, and the body hash. -/
def awsAuthLines (method query ts region name key host : String)
    (headers : List (String × String)) (bodyHash : String) : List String :=
  (["AWS4-HMAC-SHA256", ts,
    (⟨ts.data.take 8⟩ : String) ++ "/" ++ region ++ "/s3/aws4_request",
    method, "/" ++ name ++ "/" ++ key, query, "host:" ++ host]
   ++ ((signHeadNames headers).filter (fun h => h != "host")).map
        (fun h => h ++ ":" ++ hGet headers h))
  ++ ["", String.intercalate ";" (signHeadNames headers), bodyHash]

/-- The string `awsReq` sends to the `...:signV4` RPC:
`strings.Join(awsAuthStr, "\n")` after `headers.Set("X-Amz-Content-Sha256",
bodyHash)` and `headers.Set("X-Amz-Date", ts)`. -/
def awsSignV4Payload (method query ts region name key host : String)
    (headers0 : List (String × String)) (bodyHash : String) : String :=
  String.intercalate "\n"
    (awsAuthLines method query ts region name key host
      (hSet (hSet headers0 "X-Amz-Content-Sha256" bodyHash) "X-Amz-Date" ts)
      bodyHash)

/-- The well-known SHA-256 of the empty string, hard-coded by `awsReq`. -/
def emptyBodySha256 : String :=
  "e3b0c44298fc1c149afbf4c8996fb92427ae41e4649b934ca495991b7852b855"

/-- The payload hash: the empty-string constant when the seeked length is
zero, otherwise the hex SHA-256 of the whole body (the hash function itself
stays abstract). -/
def awsBodyHash (sha256hex : List UInt8 → String) (body : List UInt8) : String :=
  if body.length = 0 then emptyBodySha256 else sha256hex body

/-- The canonical string as the claim words it: method, bucket-relative
path, query, host line, timestamp, date-scope, the signed-header value
lines, the semicolon-joined names, and the payload hash as final line —
with no algorithm line and no empty field. -/
def claimedCanonicalString (method query ts region name key host : String)
    (headers : List (String × String)) (bodyHash : String) : String :=
  String.intercalate "\n"
    (([method, "/" ++ name ++ "/" ++ key, query, "host:" ++ host, ts,
       (⟨ts.data.take 8⟩ : String) ++ "/" ++ region ++ "/s3/aws4_request"]
      ++ ((signHeadNames headers).filter (fun h => h != "host")).map
           (fun h => h ++ ":" ++ hGet headers h))
     ++ [String.intercalate ";" (signHeadNames headers), bodyHash])

/-- The header set after `awsReq` stamps the two `X-Amz-*` headers. -/
def stampedHeaders (headers0 : List (String × String)) (bodyHash ts : String) :
    List (String × String) :=
  hSet (hSet headers0 "X-Amz-Content-Sha256" bodyHash) "X-Amz-Date" ts

/-- Claim C1 counterexample: at a concrete empty-body request the signing
string does not have the claim's shape: its first field is the algorithm
line `AWS4-HMAC-SHA256` (not the HTTP method), the timestamp and date-scope
precede the method, and an empty field sits before the signed-header list —
so the string differs from the one assembled from exactly the claim's
fields in the claim's order. -/
theorem awsSignV4_counterexample :
    (awsAuthLines "PUT" "partNumber=1&uploadId=XYZ" "20260101T000000Z" "us-east-1"
      "bucket" "obj" "h.example.com"
      (stampedHeaders [] emptyBodySha256 "20260101T000000Z")
      emptyBodySha256).head? = some "AWS4-HMAC-SHA256" ∧
    (awsSignV4Payload "PUT" "partNumber=1&uploadId=XYZ" "20260101T000000Z" "us-east-1"
        "bucket" "obj" "h.example.com" [] emptyBodySha256
      == claimedCanonicalString "PUT" "partNumber=1&uploadId=XYZ" "20260101T000000Z"
        "us-east-1" "bucket" "obj" "h.example.com"
        (stampedHeaders [] emptyBodySha256 "20260101T000000Z")
        emptyBodySha256) = false :=
  ⟨by decide, by decide⟩

/-- Claim C1 amended: the string sent to the `:signV4` RPC is the newline
join of, in order: the algorithm line `AWS4-HMAC-SHA256`, the UTC
`YYYYMMDDThhmmssZ` timestamp, the `YYYYMMDD/region/s3/aws4_request` scope,
the HTTP method, the bucket-relative path `/bucket/key`, the query string,
the `host:` line, the value line of every other signed header (`host` plus
every header whose lowercased name starts with `x-`) in ascending byte
order, one empty field, the semicolon-joined sorted signed-header names,
and the payload hash as the final line; the hash is the well-known
empty-string SHA-256 whenever the body is empty, and the body's SHA-256
otherwise. -/
theorem awsSignV4Payload_spec (method query ts region name key host bodyHash : String)
    (headers0 : List (String × String)) (sha256hex : List UInt8 → String)
    (body : List UInt8) :
    awsSignV4Payload method query ts region name key host headers0 bodyHash =
      String.intercalate "\n"
        ((["AWS4-HMAC-SHA256", ts,
           (⟨ts.data.take 8⟩ : String) ++ "/" ++ region ++ "/s3/aws4_request",
           method, "/" ++ name ++ "/" ++ key, query, "host:" ++ host]
          ++ ((signHeadNames (stampedHeaders headers0 bodyHash ts)).filter
                (fun h => h != "host")).map
               (fun h => h ++ ":" ++ hGet (stampedHeaders headers0 bodyHash ts) h))
         ++ ["",
             String.intercalate ";" (signHeadNames (stampedHeaders headers0 bodyHash ts)),
             bodyHash]) ∧
    List.Sorted (fun a b => strLe a b = true)
      (signHeadNames (stampedHeaders headers0 bodyHash ts)) ∧
    "host" ∈ signHeadNames (stampedHeaders headers0 bodyHash ts) ∧
    (∀ nm ∈ signHeadNames (stampedHeaders headers0 bodyHash ts),
      nm = "host" ∨ hasXDash nm = true) ∧
    (awsAuthLines method query ts region name key host
      (stampedHeaders headers0 bodyHash ts) bodyHash).getLast? = some bodyHash ∧
    (body.length = 0 → awsBodyHash sha256hex body = emptyBodySha256) ∧
    (0 < body.length → awsBodyHash sha256hex body = sha256hex body) := by
  refine ⟨rfl, ?_, ?_, ?_, ?_, ?_, ?_⟩
  · exact List.sorted_insertionSort _ _
  · exact (List.perm_insertionSort _ _).mem_iff.mpr (List.mem_cons_self _ _)
  · intro nm hnm
    have hmem := (List.perm_insertionSort _ _).mem_iff.mp hnm
    rcases List.mem_cons.mp hmem with h | h
    · exact Or.inl h
    · exact Or.inr (List.mem_filter.mp h).2
  · show ((_ ++ _) ++ ["", _, bodyHash]).getLast? = some bodyHash
    rw [show ∀ (A : List String) (x y : String),
          A ++ [x, y, bodyHash] = (A ++ [x, y]) ++ [bodyHash] from fun A x y => by simp,
      List.getLast?_concat]
  · intro h
    simp [awsBodyHash, h]
  · intro h
    have hne : body.length ≠ 0 := by omega
    simp [awsBodyHash, hne]

/-- Concrete instantiation of `awsSignV4Payload_spec`: `host` is always among
the signed-header names of a stamped request. -/
theorem awsSignV4Payload_spec_witness :
    "host" ∈ signHeadNames (stampedHeaders [] emptyBodySha256 "20260101T000000Z") :=
  (awsSignV4Payload_spec "PUT" "partNumber=1&uploadId=XYZ" "20260101T000000Z"
    "us-east-1" "bucket" "obj" "h.example.com" emptyBodySha256 [] (fun _ => "")
    []).2.2.1

/-! ## The concurrency gate: `numeralWaitGroup` (spot.go)

```go
func (n *numeralWaitGroup) Add(delta int) {
    n.lk.Lock()
    defer n.lk.Unlock()
    n.cnt += delta
    if delta < 0 {
        n.cd.Broadcast()
    }
}

func (n *numeralWaitGroup) Wait(min int) {
    n.lk.RLock()
    defer n.lk.RUnlock()
    for {
        if n.cnt <= min {
            return
        }
        n.cd.Wait()
    }
}
```

The lock makes each loop body of `Wait` — test the counter and either return
or park on the condition variable — atomic with respect to `Add`, so the
gate is a transition system whose atomic steps are: an `Add(delta)` (waking
every parked waiter when `delta < 0`), a new `Wait(m)` caller arriving, and
one waiter's test passing (it returns) or failing (it parks). -/

/-- Phase of one `Wait(min)` caller in the monitor loop. -/
inductive WaiterPhase where
  | checking
  | blocked
  | returned
  deriving DecidableEq, Repr

/-- The gate: the counter plus every `Wait` caller's limit and phase. -/
structure GateState where
  cnt : Int
  waiters : List (Int × WaiterPhase)
  deriving DecidableEq, Repr

/-- `cd.Broadcast()`: every parked waiter resumes and re-checks. -/
def wakeAll (ws : List (Int × WaiterPhase)) : List (Int × WaiterPhase) :=
  ws.map fun w => (w.1, if w.2 = .blocked then .checking else w.2)

/-- Atomic steps of the gate. -/
inductive GateStep : GateState → GateState → Prop where
  | add (s : GateState) (delta : Int) :
      GateStep s ⟨s.cnt + delta, if delta < 0 then wakeAll s.waiters else s.waiters⟩
  | enter (s : GateState) (m : Int) :
      GateStep s ⟨s.cnt, s.waiters ++ [(m, .checking)]⟩
  | pass (s : GateState) (i : Nat) (m : Int)
      (hw : s.waiters[i]? = some (m, .checking)) (hc : s.cnt ≤ m) :
      GateStep s ⟨s.cnt, s.waiters.set i (m, .returned)⟩
  | block (s : GateState) (i : Nat) (m : Int)
      (hw : s.waiters[i]? = some (m, .checking)) (hc : m < s.cnt) :
      GateStep s ⟨s.cnt, s.waiters.set i (m, .blocked)⟩

theorem wakeAll_getElem? (ws : List (Int × WaiterPhase)) (i : Nat) :
    (wakeAll ws)[i]? =
      ws[i]?.map (fun w => (w.1, if w.2 = .blocked then .checking else w.2)) := by
  unfold wakeAll
  rw [List.getElem?_map]

/-- A waiter that newly reaches `returned` did so through the `pass` step:
the counter was at most its limit and is unchanged by the step. -/
theorem gateStep_return_guard (s s' : GateState) (hstep : GateStep s s')
    (i : Nat) (m m2 : Int) (ph : WaiterPhase)
    (hw : s.waiters[i]? = some (m, ph)) (hph : ph ≠ .returned)
    (hw' : s'.waiters[i]? = some (m2, .returned)) :
    m2 = m ∧ s.cnt ≤ m ∧ s'.cnt = s.cnt := by
  cases hstep with
  | add delta =>
    exfalso
    by_cases hd : delta < 0
    · rw [if_pos hd] at hw'
      have hw2 : (wakeAll s.waiters)[i]? = some (m2, .returned) := hw'
      rw [wakeAll_getElem?, hw] at hw2
      simp only [Option.map_some'] at hw2
      obtain ⟨h2a, h2b⟩ := (Prod.mk.injEq _ _ _ _).mp (Option.some.inj hw2)
      by_cases hb : ph = .blocked
      · rw [hb] at h2b
        simp at h2b
      · rw [if_neg hb] at h2b
        exact hph h2b
    · rw [if_neg hd] at hw'
      have hw2 : s.waiters[i]? = some (m2, .returned) := hw'
      rw [hw] at hw2
      exact hph ((Prod.mk.injEq _ _ _ _).mp (Option.some.inj hw2)).2
  | enter mE =>
    exfalso
    have hlt : i < s.waiters.length := by
      by_contra hge
      rw [List.getElem?_eq_none_iff.mpr (by omega)] at hw
      cases hw
    have hw2 : (s.waiters ++ [(mE, .checking)])[i]? = some (m2, .returned) := hw'
    rw [List.getElem?_append_left hlt, hw] at hw2
    exact hph ((Prod.mk.injEq _ _ _ _).mp (Option.some.inj hw2)).2
  | pass j mj hwj hc =>
    by_cases hij : i = j
    · subst hij
      rw [hw] at hwj
      obtain ⟨h2a, h2b⟩ := (Prod.mk.injEq _ _ _ _).mp (Option.some.inj hwj)
      have hlt : i < s.waiters.length := by
        by_contra hge
        rw [List.getElem?_eq_none_iff.mpr (by omega)] at hw
        cases hw
      have hw2 : (s.waiters.set i (mj, .returned))[i]? = some (m2, .returned) := hw'
      rw [List.getElem?_set_self hlt] at hw2
      obtain ⟨h3a, h3b⟩ := (Prod.mk.injEq _ _ _ _).mp (Option.some.inj hw2)
      exact ⟨by omega, by omega, rfl⟩
    · exfalso
      have hw2 : (s.waiters.set j (mj, .returned))[i]? = some (m2, .returned) := hw'
      rw [List.getElem?_set_ne (fun h => hij h.symm), hw] at hw2
      exact hph ((Prod.mk.injEq _ _ _ _).mp (Option.some.inj hw2)).2
  | block j mj hwj hc =>
    exfalso
    by_cases hij : i = j
    · subst hij
      have hlt : i < s.waiters.length := by
        by_contra hge
        rw [List.getElem?_eq_none_iff.mpr (by omega)] at hw
        cases hw
      have hw2 : (s.waiters.set i (mj, .blocked))[i]? = some (m2, .returned) := hw'
      rw [List.getElem?_set_self hlt] at hw2
      cases ((Prod.mk.injEq _ _ _ _).mp (Option.some.inj hw2)).2
    · have hw2 : (s.waiters.set j (mj, .blocked))[i]? = some (m2, .returned) := hw'
      rw [List.getElem?_set_ne (fun h => hij h.symm), hw] at hw2
      exact hph ((Prod.mk.injEq _ _ _ _).mp (Option.some.inj hw2)).2

/-- After a broadcast no waiter is parked, and each parked waiter moved to
re-checking with its limit intact. -/
theorem wakeAll_spec (ws : List (Int × WaiterPhase)) (i : Nat) :
    (∀ m ph, ws[i]? = some (m, ph) →
      (wakeAll ws)[i]? = some (m, if ph = .blocked then .checking else ph)) ∧
    (∀ m ph, (wakeAll ws)[i]? = some (m, ph) → ph ≠ .blocked) := by
  constructor
  · intro m ph hw
    rw [wakeAll_getElem?, hw]
    simp only [Option.map_some']
  · intro m ph hw hb
    rw [wakeAll_getElem?] at hw
    cases hws : ws[i]? with
    | none => rw [hws] at hw; cases hw
    | some w =>
      rw [hws] at hw
      simp only [Option.map_some'] at hw
      have h2 := (Prod.mk.injEq _ _ _ _).mp (Option.some.inj hw)
      subst hb
      by_cases hph : w.2 = .blocked
      · simp [hph] at h2
      · simp [hph] at h2

/-! ## The dispatch pattern of `partUpload`/`awsUpload`

```go
for !eof {
    nwg.Wait(u.ParallelUploads - 1)
    partNo += 1
    ...
    nwg.Add(1)
    go u.partUploadPart(...)    // the goroutine ends with `defer nwg.Done()`
    ...
}
...
nwg.Wait(0)
```

As a transition system: the dispatcher either passes `Wait(P-1)` (enabled
only when the counter is at most `P-1`, by the gate guard proved above) or,
having passed it, performs `Add(1)` and spawns the part; any in-flight part
may finish, performing `Done()`.  `inflight` counts spawned, not-yet-done
parts. -/

/-- Dispatcher-loop state: gate counter, in-flight parts, and whether the
loop is between its `Wait(P-1)` and the following `Add(1)`+`go`. -/
structure OrchState where
  cnt : Int
  inflight : Nat
  dispatching : Bool
  deriving DecidableEq, Repr

/-- Steps of the dispatch loop running against the gate with cap `P`. -/
inductive OrchStep (P : Int) : OrchState → OrchState → Prop where
  | waitPass (s : OrchState) (h1 : s.dispatching = false) (h2 : s.cnt ≤ P - 1) :
      OrchStep P s ⟨s.cnt, s.inflight, true⟩
  | dispatch (s : OrchState) (h : s.dispatching = true) :
      OrchStep P s ⟨s.cnt + 1, s.inflight + 1, false⟩
  | partDone (s : OrchState) (h : 0 < s.inflight) :
      OrchStep P s ⟨s.cnt - 1, s.inflight - 1, s.dispatching⟩

/-- States reachable from the start of the upload (counter 0, nothing in
flight). -/
inductive OrchReachable (P : Int) : OrchState → Prop where
  | init : OrchReachable P ⟨0, 0, false⟩
  | step {s s' : OrchState} : OrchReachable P s → OrchStep P s s' →
      OrchReachable P s'

/-- The inductive invariant of the dispatch loop. -/
def orchInv (P : Int) (s : OrchState) : Prop :=
  s.cnt = (s.inflight : Int) ∧
  (s.dispatching = true → (s.inflight : Int) ≤ P - 1) ∧
  (s.inflight : Int) ≤ P

theorem orchInv_holds (P : Int) (hP : 0 ≤ P) (s : OrchState)
    (h : OrchReachable P s) : orchInv P s := by
  induction h with
  | init =>
    exact ⟨rfl, fun hx => absurd hx (by simp), by simpa using hP⟩
  | step hr hs ih =>
    obtain ⟨ih1, ih2, ih3⟩ := ih
    cases hs with
    | waitPass h1 h2 =>
      exact ⟨ih1, fun _ => by dsimp only; omega, ih3⟩
    | dispatch h =>
      have h4 := ih2 h
      refine ⟨by dsimp only; omega, fun hx => absurd hx (by simp),
        by dsimp only; omega⟩
    | partDone h =>
      refine ⟨by dsimp only; omega, ?_, by dsimp only; omega⟩
      intro hx
      dsimp only at hx ⊢
      have h5 := ih2 hx
      omega

/-- Claim C7: (i) a `Wait(min)` caller moves to returned only in a state whose
counter is at most `min`, and the step leaves the counter unchanged — `Wait`
never returns while the counter exceeds its limit; (ii) a negative `Add`
broadcasts: afterwards no waiter is parked, each having moved back to
re-checking with its limit intact; (iii) consequently the dispatch pattern
`Wait(P-1); Add(1); go part` with `Done()` at part exit keeps the counter
equal to the number of in-flight parts, never exceeding `P`, and the final
`Wait(0)` can return only in a state with zero parts in flight. -/
theorem nwg_gate_spec (P : Int) (hP : 0 ≤ P) :
    (∀ s s' : GateState, GateStep s s' → ∀ i : Nat, ∀ m m2 : Int,
      ∀ ph : WaiterPhase, s.waiters[i]? = some (m, ph) → ph ≠ .returned →
      s'.waiters[i]? = some (m2, .returned) →
      m2 = m ∧ s.cnt ≤ m ∧ s'.cnt = s.cnt) ∧
    (∀ s : GateState, ∀ delta : Int, delta < 0 →
      GateStep s ⟨s.cnt + delta, wakeAll s.waiters⟩) ∧
    (∀ ws : List (Int × WaiterPhase), ∀ i : Nat, ∀ m : Int, ∀ ph : WaiterPhase,
      (ws[i]? = some (m, ph) →
        (wakeAll ws)[i]? = some (m, if ph = .blocked then .checking else ph)) ∧
      ((wakeAll ws)[i]? = some (m, ph) → ph ≠ .blocked)) ∧
    (∀ s : OrchState, OrchReachable P s →
      s.cnt = (s.inflight : Int) ∧ (s.inflight : Int) ≤ P ∧
      (s.cnt ≤ 0 → s.inflight = 0)) := by
  refine ⟨fun s s' hstep i m m2 ph hw hph hw' =>
      gateStep_return_guard s s' hstep i m m2 ph hw hph hw',
    ?_, ?_, ?_⟩
  · intro s delta hd
    have := GateStep.add s delta
    rw [if_pos hd] at this
    exact this
  · intro ws i m ph
    exact ⟨(wakeAll_spec ws i).1 m ph, (wakeAll_spec ws i).2 m ph⟩
  · intro s hs
    obtain ⟨h1, h2, h3⟩ := orchInv_holds P hP s hs
    exact ⟨h1, h3, fun hc => by omega⟩

/-- Concrete instantiation of `nwg_gate_spec` with the default
`ParallelUploads = 3`, on the reachable state after one dispatch: one part in
flight, counter 1, within the cap. -/
theorem nwg_gate_spec_witness :
    ((⟨1, 1, false⟩ : OrchState).inflight : Int) ≤ 3 :=
  ((nwg_gate_spec 3 (by norm_num)).2.2.2 ⟨1, 1, false⟩
    (.step (.step .init (.waitPass ⟨0, 0, false⟩ rfl (by norm_num)))
      (.dispatch ⟨0, 0, true⟩ rfl))).2.1

end RestUpload
